import Mathlib

/-!
# Verification of the muchain-fabric Transaction-Set State Engine

Shallow embedding of the transaction-set state machinery of the repository:

* `protos/txsetstatevalue.go` — `TxSetStateValue`, `IsValidBlockExtension`,
  `IsValidMutation`, `PositionForIndex` (via Go `sort.Search`).
* `core/ledger/state/txsetst/txset_state.go` — the two-tier delta store
  `TxSetState` with `Get`, `Set`, `TxBegin`, `TxFinish`, `GetOlderBlockMod`.
* `core/ledger/ledger.go` — the invariant-enforcing writer `SetTxSetState`
  and the current-default resolver part of `GetCurrentDefault`.
* `core/chaincode/exectransaction.go` — the `TransactionSet` branch of
  `Execute`.

Go `uint64` values are embedded as `Nat` with explicit wrap-around
arithmetic (`uadd`, `usub`) modulo `2^64` wherever the source performs
arithmetic.  Go runtime panics (slice index out of range, state panics)
are embedded as distinguished error values so that every function is total.

The `statemgmt` delta primitives (`TxSetStateDelta`, `UpdatedValue`) are not
among the provided sources (only their callers are); they are modelled from
the specification and marked as such in their doc comments.
-/

/-- Word size of Go `uint64` arithmetic. -/
def W : Nat := 2 ^ 64

/-- Go `uint64` addition (wraps modulo `2^64`). -/
def uadd (a b : Nat) : Nat := (a + b) % W

/-- Go `uint64` subtraction (wraps modulo `2^64`; faithful for `a b < W`). -/
def usub (a b : Nat) : Nat := (a + W - b % W) % W

/-- `protos.TxSetIndex`: block number and last in-block logical index of the
part of a transactions set committed at that block (`protos/state.proto`). -/
structure TxSetIndex where
  blockNr : Nat
  inBlockIndex : Nat
deriving DecidableEq, Repr

instance : Inhabited TxSetIndex := ⟨⟨0, 0⟩⟩

/-- `protos.TxSetStateValue`: the versioned descriptor of a transactions set
(`protos/state.proto`). -/
structure TxSetStateValue where
  nonce : Nat
  introBlock : Nat
  lastModifiedAtBlock : Nat
  index : Nat
  txNumber : Nat
  indexAtBlock : List TxSetIndex
deriving DecidableEq, Repr

/-- The Go zero value of `TxSetStateValue` (what `SetTxSetState` substitutes
for an absent previous value). -/
def TxSetStateValue.zero : TxSetStateValue := ⟨0, 0, 0, 0, 0, []⟩

instance : Inhabited TxSetStateValue := ⟨TxSetStateValue.zero⟩

/-- Errors and runtime panics of the embedded Go code.  `errMsg` is an
ordinary `error` value; `invalidArgument` / `resourceNotFound` are ledger
errors tagged with their `ErrorType`; the `panic…` constructors embed Go
runtime panics (which in Go would crash the process) so that every embedded
function is total. -/
inductive GoError where
  | errMsg (msg : String)
  | invalidArgument (msg : String)
  | resourceNotFound (msg : String)
  | panicIndexOutOfRange
  | panicState (msg : String)
deriving DecidableEq, Repr

/-- Helper for `IsValidBlockExtension`: the loop
`for i, indexInfo := range txSetStateValue.IndexAtBlock` comparing each prior
entry against `other.IndexAtBlock[i]`.  Go panics when `i` is out of range
for `other`; embedded as `panicIndexOutOfRange`
(`protos/txsetstatevalue.go:27-32`). -/
def checkPriorEntries : Nat → List TxSetIndex → List TxSetIndex → Except GoError Unit
  | _, [], _ => .ok ()
  | i, e :: rest, otherList =>
    match otherList.get? i with
    | none => .error .panicIndexOutOfRange
    | some o =>
      if e.blockNr ≠ o.blockNr ∨ e.inBlockIndex ≠ o.inBlockIndex then
        .error (.errMsg "conflicting index information")
      else checkPriorEntries (i + 1) rest otherList

/-- `(*TxSetStateValue).IsValidBlockExtension` from
`protos/txsetstatevalue.go:16-37`.  The receiver is the previous value,
`other` the candidate new value.  Accessing
`other.IndexAtBlock[len(other.IndexAtBlock)-1]` on an empty slice panics in
Go; embedded as the `panicIndexOutOfRange` branch. -/
def TxSetStateValue.IsValidBlockExtension (prev other : TxSetStateValue) : Except GoError Unit :=
  if prev.txNumber > other.txNumber then
    .error (.errMsg "The next state for this transactions set contains less transactions.")
  else
    match other.indexAtBlock.get? (other.indexAtBlock.length - 1) with
    | none => .error .panicIndexOutOfRange
    | some lastEntry =>
      if lastEntry.inBlockIndex ≠ usub other.txNumber 1 then
        .error (.errMsg "The index of the new set is not correct.")
      else if lastEntry.blockNr ≠ other.lastModifiedAtBlock then
        .error (.errMsg "The block of the new set is not correct.")
      else
        match checkPriorEntries 0 prev.indexAtBlock other.indexAtBlock with
        | .error e => .error e
        | .ok _ =>
          if prev.introBlock ≠ 0 ∧ other.index ≠ prev.index then
            .error (.errMsg "It is not possible to modify the index in a set extension.")
          else .ok ()

/-- `(*TxSetStateValue).IsValidMutation` from
`protos/txsetstatevalue.go:39-56`.  The receiver is the previous value,
`other` the candidate new value. -/
def TxSetStateValue.IsValidMutation (prev other : TxSetStateValue) : Except GoError Unit :=
  if prev.lastModifiedAtBlock ≥ other.lastModifiedAtBlock then
    .error (.errMsg "It is not allow to modify a transaction before the last time it was modified.")
  else if prev.txNumber ≠ other.txNumber then
    .error (.errMsg "A mutant transaction cannot extend a set.")
  else if prev.index = other.index then
    .error (.errMsg "Mutating, but the active index did not change.")
  else if other.index ≥ other.txNumber then
    .error (.errMsg "Provided an out of bound new index for the transaction.")
  else if prev.indexAtBlock ≠ other.indexAtBlock then
    .error (.errMsg "A mutant transaction cannot extend a set.")
  else .ok ()

/-- The `inBlockIndex` of entry `h` of `v.indexAtBlock` (0 past the end;
only evaluated in range by the search loop). -/
def ibiAt (v : TxSetStateValue) (h : Nat) : Nat :=
  ((v.indexAtBlock.get? h).getD default).inBlockIndex

/-- The `blockNr` of entry `h` of `v.indexAtBlock`. -/
def blockNrAt (v : TxSetStateValue) (h : Nat) : Nat :=
  ((v.indexAtBlock.get? h).getD default).blockNr

/-- The binary-search loop of Go `sort.Search`
(`i, j := 0, n; for i < j { h := (i+j)/2; if !f(h) { i = h+1 } else { j = h } }; return i`),
used by `PositionForIndex` (`protos/txsetstatevalue.go:59`). -/
def searchLoop (f : Nat → Bool) (i j : Nat) : Nat :=
  if h : i < j then
    let m := (i + j) / 2
    if f m then searchLoop f i m else searchLoop f (m + 1) j
  else i
termination_by j - i
decreasing_by
  · have hm : (i + j) / 2 < j := by
      have : i + j < 2 * j := by omega
      exact Nat.div_lt_of_lt_mul this
    omega
  · have hm : i ≤ (i + j) / 2 := by
      have : i * 2 ≤ i + j := by omega
      exact (Nat.le_div_iff_mul_le (by omega)).mpr this
    omega

/-- `(*TxSetStateValue).PositionForIndex` from
`protos/txsetstatevalue.go:58-65`: `sort.Search` over `indexAtBlock` for the
predicate `inx <= indexAtBlock[i].InBlockIndex`, returning the found
position or an error when the search runs off the end. -/
def TxSetStateValue.PositionForIndex (v : TxSetStateValue) (inx : Nat) : Except GoError Nat :=
  let n := v.indexAtBlock.length
  let i := searchLoop (fun h => decide (inx ≤ ibiAt v h)) 0 n
  if i < n then .ok i else .error (.errMsg "Block for index not found.")

/-- Modelled from the spec: the repository method `BlockForIndex`, whose
definition is not among the provided sources (only its caller
`GetCurrentDefault` is).  Per the spec (section 4.6): binary search in
`indexAtBlock` for the smallest `i` with
`index <= indexAtBlock[i].inBlockIndex` (error when none); the result
carries that entry's `blockNr` together with the start index of the set at
that block, `(i == 0 ? -1 : indexAtBlock[i-1].inBlockIndex) + 1`, so that
the caller's `index - result.InBlockIndex` is the local index. -/
def TxSetStateValue.BlockForIndex (v : TxSetStateValue) (inx : Nat) : Except GoError TxSetIndex :=
  match v.PositionForIndex inx with
  | .error e => .error e
  | .ok i =>
    let start := if i = 0 then 0 else uadd (ibiAt v (i - 1)) 1
    .ok ⟨blockNrAt v i, start⟩

/-- The current-default resolver core of `(*Ledger).GetCurrentDefault`
(`core/ledger/ledger.go`): `defInxInfo := BlockForIndex(Index)`,
`defBlock := defInxInfo.BlockNr`,
`inxAtBlock := Index - defInxInfo.InBlockIndex`.  Returns the pair
`(defBlock, localIndex)`. -/
def resolveDefault (v : TxSetStateValue) (inx : Nat) : Except GoError (Nat × Nat) :=
  match v.BlockForIndex inx with
  | .error e => .error e
  | .ok info => .ok (info.blockNr, usub inx info.inBlockIndex)

/-- Modelled from the spec: `statemgmt.UpdatedValue` (the `statemgmt`
package of `core/ledger/state/txsetst` is not among the provided sources;
only its callers are).  Per the spec (section 4.2):
`UpdatedValue = { previous: optional, value: optional, isMutant: bool }`. -/
structure UpdatedValue where
  previous : Option TxSetStateValue
  value : Option TxSetStateValue
  isMutant : Bool
deriving DecidableEq, Repr

/-- Modelled from the spec: `statemgmt.TxSetStateDelta`, a mapping from
set identifier to `UpdatedValue`, embedded as an association list with
unique keys. -/
abbrev TxSetStateDelta := List (String × UpdatedValue)

/-- Modelled from the spec: `TxSetStateDelta.Get`. -/
def dget : TxSetStateDelta → String → Option UpdatedValue
  | [], _ => none
  | (k, uv) :: rest, key => if k = key then some uv else dget rest key

/-- Modelled from the spec: `TxSetStateDelta.IsUpdatedValueSet(k)` — true
iff an update is already recorded for the key. -/
def isUpdatedValueSet (d : TxSetStateDelta) (key : String) : Bool :=
  (dget d key).isSome

/-- Record an update in a delta, replacing any previous record for the key. -/
def dput (d : TxSetStateDelta) (key : String) (uv : UpdatedValue) : TxSetStateDelta :=
  (key, uv) :: d.filter (fun p => p.1 ≠ key)

/-- Modelled from the spec: `TxSetStateDelta.Set(k, new, prev)` — records an
update with `isMutant = (prev.present && new.txNumber == prev.txNumber &&
new.index != prev.index)` (spec section 4.2). -/
def dsetValue (d : TxSetStateDelta) (key : String) (newV : TxSetStateValue)
    (prev : Option TxSetStateValue) : TxSetStateDelta :=
  let isMut := match prev with
    | none => false
    | some p => decide (newV.txNumber = p.txNumber ∧ newV.index ≠ p.index)
  dput d key ⟨prev, some newV, isMut⟩

/-- Modelled from the spec: `TxSetStateDelta.ApplyChanges(other)` — merges
`other` into the delta, the keys set by `other` winning. -/
def applyChanges (d other : TxSetStateDelta) : TxSetStateDelta :=
  other.foldr (fun p acc => dput acc p.1 p.2) d

/-- The raw backing store (`txsetst/raw`): one entry per set identifier,
embedded as an association list. -/
abbrev TxSetStore := List (String × TxSetStateValue)

/-- Lookup in the raw backing store. -/
def sget : TxSetStore → String → Option TxSetStateValue
  | [], _ => none
  | (k, v) :: rest, key => if k = key then some v else sget rest key

/-- `txsetst.TxSetState` from
`core/ledger/state/txsetst/txset_state.go:40-48`: the backing
implementation plus the two in-memory deltas (`txSetStateDelta` is the
per-block committed delta, `currentTxSetStateDelta` the per-transaction
delta) and the id of the transaction in progress (empty when none). -/
structure TxSetState where
  store : TxSetStore
  txSetStateDelta : TxSetStateDelta
  currentTxSetStateDelta : TxSetStateDelta
  currentTxID : String
deriving DecidableEq, Repr

/-- `(*TxSetState).txInProgress` (`txset_state.go:103-105`). -/
def TxSetState.txInProgress (st : TxSetState) : Bool := st.currentTxID ≠ ""

/-- `(*TxSetState).Get` from `txset_state.go:107-121`: when `committed` is
false look up the current delta, then the committed delta, then the backing
store; when `committed` is true, the backing store only. -/
def TxSetState.Get (st : TxSetState) (txID : String) (committed : Bool) :
    Option TxSetStateValue :=
  if committed = false then
    match dget st.currentTxSetStateDelta txID with
    | some uv => uv.value
    | none =>
      match dget st.txSetStateDelta txID with
      | some uv => uv.value
      | none => sget st.store txID
  else sget st.store txID

/-- `(*TxSetState).TxBegin` from `txset_state.go:75-81`; panics (embedded as
`panicState`) when a transaction is already in progress. -/
def TxSetState.TxBegin (st : TxSetState) (txID : String) : Except GoError TxSetState :=
  if st.txInProgress then
    .error (.panicState "A tx is already in progress.")
  else .ok { st with currentTxID := txID }

/-- `(*TxSetState).TxFinish` from `txset_state.go:84-101`: on success with a
non-empty current delta, merge it into the committed delta; always clear the
current delta and transaction id.  Panics (embedded) on a mismatched id.
The per-transaction hash map is not modelled (no claim concerns it). -/
def TxSetState.TxFinish (st : TxSetState) (txID : String) (txSuccessful : Bool) :
    Except GoError TxSetState :=
  if st.currentTxID ≠ txID then
    .error (.panicState "Different txId in tx-begin and tx-finish")
  else
    .ok { st with
      txSetStateDelta :=
        if txSuccessful ∧ st.currentTxSetStateDelta ≠ [] then
          applyChanges st.txSetStateDelta st.currentTxSetStateDelta
        else st.txSetStateDelta,
      currentTxSetStateDelta := [],
      currentTxID := "" }

/-- `(*TxSetState).Set` from `txset_state.go:124-149`: panics outside a
transaction; silently refuses (warning only, state unchanged) when the key
already has an update in either delta; otherwise looks up the previous
committed value and records the update in the current delta. -/
def TxSetState.Set (st : TxSetState) (txSetID : String) (stateValue : TxSetStateValue) :
    Except GoError TxSetState :=
  if st.txInProgress = false then
    .error (.panicState "State can be changed only in context of a tx.")
  else if isUpdatedValueSet st.currentTxSetStateDelta txSetID
       || isUpdatedValueSet st.txSetStateDelta txSetID then
    .ok st
  else
    let previousValue := st.Get txSetID true
    .ok { st with
      currentTxSetStateDelta := dsetValue st.currentTxSetStateDelta txSetID stateValue previousValue }

/-- The scan loop of `GetOlderBlockMod` (`txset_state.go:183-195`): fold the
committed delta, tracking the minimum `Value.IntroBlock` over mutant-bearing
updates.  Dereferencing a `nil` `Value` would panic in Go; embedded as
`panicState`. -/
def golderAux : List (String × UpdatedValue) → Option Nat → Except GoError (Option Nat)
  | [], acc => .ok acc
  | (_, uv) :: rest, acc =>
    if uv.isMutant then
      match uv.value with
      | none => .error (.panicState "nil value dereference")
      | some v =>
        let acc' := match acc with
          | none => some v.introBlock
          | some older => some (if v.introBlock < older then v.introBlock else older)
        golderAux rest acc'
    else golderAux rest acc

/-- `(*TxSetState).GetOlderBlockMod` from `txset_state.go:180-197`: the
smallest `Value.IntroBlock` among updates of the committed delta with
`IsMutant = true`, and whether any such update exists. -/
def TxSetState.GetOlderBlockMod (st : TxSetState) : Except GoError (Nat × Bool) :=
  match golderAux st.txSetStateDelta none with
  | .error e => .error e
  | .ok none => .ok (0, false)
  | .ok (some older) => .ok (older, true)

/-- `(*Ledger).SetTxSetState` from `core/ledger/ledger.go`: the
invariant-enforcing writer.  Fetches the previous committed value (the Go
zero value when absent), requires `nonce = prev.nonce + 1` (uint64), a
frozen `introBlock`, validates as a mutation when
`prev.introBlock != 0 && prev.index != new.index` and as a block extension
otherwise, then delegates to `TxSetState.Set`.  Ordinary validator errors
are wrapped as `InvalidArgument` ledger errors; embedded panics propagate. -/
def SetTxSetState (st : TxSetState) (txSetID : String) (v : TxSetStateValue) :
    Except GoError TxSetState :=
  let previousValue := (st.Get txSetID true).getD TxSetStateValue.zero
  if v.nonce ≠ uadd previousValue.nonce 1 then
    .error (.invalidArgument "Wrong nonce update.")
  else if previousValue.introBlock ≠ 0 ∧ previousValue.introBlock ≠ v.introBlock then
    .error (.invalidArgument "A mutant transaction or an extension to a set cannot modify the intro block.")
  else if previousValue.introBlock ≠ 0 ∧ previousValue.index ≠ v.index then
    match previousValue.IsValidMutation v with
    | .error (.errMsg s) => .error (.invalidArgument s)
    | .error e => .error e
    | .ok _ => st.Set txSetID v
  else
    match previousValue.IsValidBlockExtension v with
    | .error (.errMsg s) => .error (.invalidArgument s)
    | .error e => .error e
    | .ok _ => st.Set txSetID v

/-- Runs `SetTxSetState` as the Go caller observes it: on any error the
state object is left exactly as it was (all validation happens before any
write to the deltas). -/
def SetTxSetStateRun (st : TxSetState) (txSetID : String) (v : TxSetStateValue) :
    TxSetState × Option GoError :=
  match SetTxSetState st txSetID v with
  | .ok st2 => (st2, none)
  | .error e => (st, some e)

/-- `protos.TransactionSet` (fields used by the executor): the ordered
candidate payloads (opaque byte strings), the default index and the
`extend` flag. -/
structure TransactionSet where
  transactions : List String
  defaultInx : Nat
  extend : Bool
deriving DecidableEq, Repr

/-- The set-bearing variant of `protos.InBlockTransaction` consumed by the
`InBlockTransaction_TransactionSet` branch of `Execute`. -/
structure InBlockTx where
  txid : String
  txSet : TransactionSet
deriving DecidableEq, Repr

/-- The ledger-level state the `Execute` transaction-set branch touches:
the transaction-set state, the resetting flag and the blockchain sizes
(`GetCurrentBlockEx` returns `resetBlock` when resetting, the chain size
otherwise). -/
structure LedgerState where
  txSetState : TxSetState
  isResetting : Bool
  blockchainSize : Nat
  resetBlock : Nat
deriving DecidableEq, Repr

/-- `(*Ledger).GetCurrentBlockEx` from `core/ledger/ledger.go`. -/
def LedgerState.currentBlockEx (l : LedgerState) : Nat :=
  if l.isResetting then l.resetBlock else l.blockchainSize

/-- What `GetCurrentDefault` selects for dispatch to the chaincode VM:
either a payload taken from the inspected transaction's own candidate list,
or a candidate located in an earlier block (block number and local index
within that block's part of the set; the block fetch itself and the
transaction-id indexer are outside the provided sources and abstracted). -/
inductive Dispatch where
  | payload (bytes : String)
  | fromBlock (blockNr : Nat) (localIndex : Nat)
deriving DecidableEq, Repr

/-- `(*Ledger).GetCurrentDefault` from `core/ledger/ledger.go`, restricted
to set-bearing, non-confidential transactions (confidential decryption is a
pluggable call outside the modelled core).  Go first evaluates
`Transactions[DefaultInx]` (panicking when out of range), then either
returns the encapsulated first candidate (no stored state) or resolves
`(defBlock, localIndex)` via `BlockForIndex`; when `defBlock` is an older
block the candidate is fetched from that block (abstracted as
`Dispatch.fromBlock`), otherwise the `DefaultInx` payload stands. -/
def GetCurrentDefault (st : TxSetState) (blockchainSize : Nat) (tx : InBlockTx)
    (committed : Bool) : Except GoError Dispatch :=
  let txSetStValue := st.Get tx.txid committed
  match tx.txSet.transactions.get? tx.txSet.defaultInx with
  | none => .error .panicIndexOutOfRange
  | some defBytes =>
    match txSetStValue with
    | none => .ok (.payload (tx.txSet.transactions.headD defBytes))
    | some v =>
      match resolveDefault v v.index with
      | .error e => .error e
      | .ok (defBlock, localIndex) =>
        if defBlock < blockchainSize then .ok (.fromBlock defBlock localIndex)
        else .ok (.payload defBytes)

/-- Result of the embedded `Execute` transaction-set branch: the ledger
state as left by the call, the candidate selected for VM dispatch (if any)
and the error (if any) — Go mutates the ledger in place, so state changes
survive an error return. -/
structure ExecResult where
  ledger : LedgerState
  dispatch : Option Dispatch
  err : Option GoError
deriving DecidableEq, Repr

/-- The tail of the `Execute` set branch after any state update
(`core/chaincode/exectransaction.go:89-97`): extensions are not executed;
otherwise the current default is resolved for VM dispatch (the VM call
itself is outside the modelled core — the selected candidate is the
result). -/
def executeTxSetDispatch (l : LedgerState) (tx : InBlockTx) : ExecResult :=
  if tx.txSet.extend then ⟨l, none, none⟩
  else
    match GetCurrentDefault l.txSetState l.blockchainSize tx false with
    | .error e => ⟨l, none, some e⟩
    | .ok d => ⟨l, some d, none⟩

/-- The `InBlockTransaction_TransactionSet` branch of `Execute` from
`core/chaincode/exectransaction.go:46-97`: reject an empty candidate list;
when not resetting and (the set exists or more than one candidate is
carried) update the tx-set state through the invariant-enforcing writer
inside a `TxBegin`/`TxFinish` scope (rejecting an extension of a
non-existent set); extensions and non-introducing blocks are not executed;
otherwise the current default is selected for dispatch.  Error messages
that merely wrap an inner error keep the inner error value. -/
def ExecuteTxSet (l : LedgerState) (tx : InBlockTx) : ExecResult :=
  let nextBlockNr := l.currentBlockEx
  if tx.txSet.transactions.length = 0 then
    ⟨l, none, some (.errMsg "At least a transaction to execute should be provided.")⟩
  else
    let txSetStValue := l.txSetState.Get tx.txid false
    let txSetExistedAlready := txSetStValue.isSome
    if l.isResetting = false ∧ (txSetExistedAlready = true ∨ 1 < tx.txSet.transactions.length) then
      if txSetExistedAlready = false ∧ tx.txSet.extend = true then
        ⟨l, none, some (.errMsg "Cannot extend a non existent transactions set.")⟩
      else
        match l.txSetState.TxBegin tx.txid with
        | .error e => ⟨l, none, some e⟩
        | .ok st1 =>
          let base := match txSetStValue with
            | some v => v
            | none =>
              { TxSetStateValue.zero with
                  introBlock := nextBlockNr, index := tx.txSet.defaultInx }
          let newTxNumber := uadd base.txNumber tx.txSet.transactions.length
          let newVal : TxSetStateValue :=
            { base with
                nonce := uadd base.nonce 1,
                txNumber := newTxNumber,
                indexAtBlock := base.indexAtBlock ++ [⟨nextBlockNr, usub newTxNumber 1⟩],
                lastModifiedAtBlock := nextBlockNr }
          match SetTxSetState st1 tx.txid newVal with
          | .error e =>
            match st1.TxFinish tx.txid false with
            | .error e2 => ⟨{ l with txSetState := st1 }, none, some e2⟩
            | .ok st2 => ⟨{ l with txSetState := st2 }, none, some e⟩
          | .ok st2 =>
            match st2.TxFinish tx.txid true with
            | .error e2 => ⟨{ l with txSetState := st2 }, none, some e2⟩
            | .ok st3 =>
              let l2 := { l with txSetState := st3 }
              if newVal.introBlock ≠ nextBlockNr then ⟨l2, none, none⟩
              else executeTxSetDispatch l2 tx
    else executeTxSetDispatch l tx

/-! ## Arithmetic helper lemmas for wrap-around `uint64` operations -/

lemma W_pos : 0 < W := by norm_num [W]

lemma uadd_eq (a b : Nat) (h : a + b < W) : uadd a b = a + b :=
  Nat.mod_eq_of_lt h

lemma usub_of_le (a b : Nat) (hba : b ≤ a) (ha : a < W) : usub a b = a - b := by
  unfold usub
  rw [Nat.mod_eq_of_lt (lt_of_le_of_lt hba ha)]
  have h1 : a + W - b = W + (a - b) := by omega
  rw [h1, Nat.add_mod_left]
  exact Nat.mod_eq_of_lt (by omega)

/-! ## Theorems about the embedded program -/

/-- C10: for every transaction-set transaction whose candidate list is
empty, `Execute` returns the error
`At least a transaction to execute should be provided.` before any state
read or write: the ledger state is returned unchanged and nothing is
dispatched to the VM. -/
theorem executeTxSet_rejects_empty_candidates (l : LedgerState) (tx : InBlockTx)
    (h : tx.txSet.transactions = []) :
    ExecuteTxSet l tx =
      ⟨l, none, some (.errMsg "At least a transaction to execute should be provided.")⟩ := by
  simp [ExecuteTxSet, h]

/-- Witness for C10 at a concrete input. -/
theorem executeTxSet_rejects_empty_candidates_witness :
    ExecuteTxSet ⟨⟨[], [], [], ""⟩, false, 3, 0⟩ ⟨"E", ⟨[], 1, false⟩⟩ =
      ⟨⟨⟨[], [], [], ""⟩, false, 3, 0⟩, none,
        some (.errMsg "At least a transaction to execute should be provided.")⟩ :=
  executeTxSet_rejects_empty_candidates _ _ rfl

/-- C3 counterexample: an extension (`extend = true`) of a non-existent set
carrying exactly one candidate payload is NOT rejected — `Execute` skips the
state-update branch entirely (the set does not exist and only one candidate
is carried) and then returns without error because extensions are not
executed.  The claim asserts failure regardless of the number of
candidates; here the error is absent. -/
theorem executeTxSet_single_extension_not_rejected :
    ExecuteTxSet ⟨⟨[], [], [], ""⟩, false, 3, 0⟩ ⟨"Z", ⟨["t"], 0, true⟩⟩ =
      ⟨⟨⟨[], [], [], ""⟩, false, 3, 0⟩, none, none⟩ ∧
    TxSetState.Get ⟨[], [], [], ""⟩ "Z" false = none := ⟨rfl, rfl⟩

/-- C3 amended: for every extension transaction (`extend = true`) whose set
id has no prior stored state, while the ledger is not resetting: when it
carries more than one candidate payload, execution fails with
`Cannot extend a non existent transactions set.`, no state is written and
no candidate is dispatched; when it carries exactly one candidate payload
it is skipped silently (no error), and likewise no state is written and
nothing is dispatched. -/
theorem executeTxSet_extension_nonexistent (l : LedgerState) (tx : InBlockTx)
    (hget : l.txSetState.Get tx.txid false = none)
    (hext : tx.txSet.extend = true)
    (hres : l.isResetting = false) :
    (1 < tx.txSet.transactions.length →
      ExecuteTxSet l tx =
        ⟨l, none, some (.errMsg "Cannot extend a non existent transactions set.")⟩) ∧
    (tx.txSet.transactions.length = 1 →
      ExecuteTxSet l tx = ⟨l, none, none⟩) := by
  constructor
  · intro hlen
    have hne : ¬ tx.txSet.transactions.length = 0 := by omega
    simp [ExecuteTxSet, hget, hres, hext, hne, hlen]
  · intro hlen
    have hne : ¬ tx.txSet.transactions.length = 0 := by omega
    have hnlt : ¬ (1 : Nat) < tx.txSet.transactions.length := by omega
    simp [ExecuteTxSet, executeTxSetDispatch, hget, hres, hext, hne, hnlt]

/-- Witness for the amended C3 at a concrete input. -/
theorem executeTxSet_extension_nonexistent_witness :
    ExecuteTxSet ⟨⟨[], [], [], ""⟩, false, 3, 0⟩ ⟨"Z", ⟨["t", "u"], 0, true⟩⟩ =
      ⟨⟨⟨[], [], [], ""⟩, false, 3, 0⟩, none,
        some (.errMsg "Cannot extend a non existent transactions set.")⟩ :=
  (executeTxSet_extension_nonexistent ⟨⟨[], [], [], ""⟩, false, 3, 0⟩
    ⟨"Z", ⟨["t", "u"], 0, true⟩⟩ rfl rfl rfl).1 (by norm_num)

/-- C6: a second `Set` on a key that already has an update recorded in
either the current (per-transaction) delta or the committed (per-block)
delta returns without error and leaves the state — in particular both
deltas, hence the committed outcome of the block — entirely unchanged, so
the first write stays in force. -/
theorem txSetState_set_refuses_double_write (st : TxSetState) (k : String)
    (v : TxSetStateValue)
    (htx : st.txInProgress = true)
    (hdup : isUpdatedValueSet st.currentTxSetStateDelta k = true ∨
            isUpdatedValueSet st.txSetStateDelta k = true) :
    TxSetState.Set st k v = .ok st := by
  rcases hdup with h | h <;> simp [TxSetState.Set, htx, h]

/-- Witness for C6 at a concrete input: a mutant for key `A` is already in
the committed delta; a second write of a different value is a silent no-op. -/
theorem txSetState_set_refuses_double_write_witness :
    TxSetState.Set
      ⟨[("A", ⟨1, 3, 3, 1, 3, [⟨3, 2⟩]⟩)],
       [("A", ⟨some ⟨1, 3, 3, 1, 3, [⟨3, 2⟩]⟩, some ⟨2, 3, 7, 2, 3, [⟨3, 2⟩]⟩, true⟩)],
       [], "tx2"⟩ "A" ⟨3, 3, 7, 0, 3, [⟨3, 2⟩]⟩ =
    .ok ⟨[("A", ⟨1, 3, 3, 1, 3, [⟨3, 2⟩]⟩)],
       [("A", ⟨some ⟨1, 3, 3, 1, 3, [⟨3, 2⟩]⟩, some ⟨2, 3, 7, 2, 3, [⟨3, 2⟩]⟩, true⟩)],
       [], "tx2"⟩ :=
  txSetState_set_refuses_double_write _ _ _ rfl (Or.inr rfl)

/-- C7: `Get(k, committed=false)` returns the value staged in the current
per-transaction delta when one is recorded, otherwise the value in the
per-block committed delta when one is recorded, otherwise the
backing-store value; `Get(k, committed=true)` returns the backing-store
value only, regardless of staged writes. -/
theorem txSetState_get_layering (st : TxSetState) (k : String) :
    (∀ uv, dget st.currentTxSetStateDelta k = some uv →
      st.Get k false = uv.value) ∧
    (dget st.currentTxSetStateDelta k = none →
      ∀ uv, dget st.txSetStateDelta k = some uv → st.Get k false = uv.value) ∧
    (dget st.currentTxSetStateDelta k = none →
      dget st.txSetStateDelta k = none → st.Get k false = sget st.store k) ∧
    st.Get k true = sget st.store k := by
  refine ⟨?_, ?_, ?_, ?_⟩
  · intro uv h; simp [TxSetState.Get, h]
  · intro h1 uv h2; simp [TxSetState.Get, h1, h2]
  · intro h1 h2; simp [TxSetState.Get, h1, h2]
  · simp [TxSetState.Get]

/-- Witness for C7 at a concrete input: a value staged in the current delta
shadows the committed-delta and backing-store values for
`committed = false` but not for `committed = true`. -/
theorem txSetState_get_layering_witness :
    TxSetState.Get
      ⟨[("A", ⟨1, 3, 3, 1, 3, [⟨3, 2⟩]⟩)], [],
       [("A", ⟨some ⟨1, 3, 3, 1, 3, [⟨3, 2⟩]⟩, some ⟨2, 3, 7, 0, 3, [⟨3, 2⟩]⟩, true⟩)],
       "tx9"⟩ "A" false = some ⟨2, 3, 7, 0, 3, [⟨3, 2⟩]⟩ ∧
    TxSetState.Get
      ⟨[("A", ⟨1, 3, 3, 1, 3, [⟨3, 2⟩]⟩)], [],
       [("A", ⟨some ⟨1, 3, 3, 1, 3, [⟨3, 2⟩]⟩, some ⟨2, 3, 7, 0, 3, [⟨3, 2⟩]⟩, true⟩)],
       "tx9"⟩ "A" true = some ⟨1, 3, 3, 1, 3, [⟨3, 2⟩]⟩ := by
  refine ⟨(txSetState_get_layering
      ⟨[("A", ⟨1, 3, 3, 1, 3, [⟨3, 2⟩]⟩)], [],
       [("A", ⟨some ⟨1, 3, 3, 1, 3, [⟨3, 2⟩]⟩, some ⟨2, 3, 7, 0, 3, [⟨3, 2⟩]⟩, true⟩)],
       "tx9"⟩ "A").1
      ⟨some ⟨1, 3, 3, 1, 3, [⟨3, 2⟩]⟩, some ⟨2, 3, 7, 0, 3, [⟨3, 2⟩]⟩, true⟩ rfl,
    (txSetState_get_layering _ "A").2.2.2⟩

/-- C4: the invariant-enforcing writer rejects a new value whose nonce is
not the previous committed nonce plus one (the previous value being the
zero record when none is stored) with an `InvalidArgument` error, leaving
the state — committed store and both staged deltas — untouched; and a
write is accepted only when `new.nonce = prev.nonce + 1`. -/
theorem setTxSetState_nonce_guard (st : TxSetState) (id : String)
    (v prev : TxSetStateValue)
    (hprev : (st.Get id true).getD TxSetStateValue.zero = prev)
    (hrange : prev.nonce + 1 < W) :
    (v.nonce ≠ prev.nonce + 1 →
      SetTxSetStateRun st id v = (st, some (.invalidArgument "Wrong nonce update."))) ∧
    (∀ st2, SetTxSetState st id v = .ok st2 → v.nonce = prev.nonce + 1) := by
  have huadd : uadd prev.nonce 1 = prev.nonce + 1 := uadd_eq _ _ hrange
  constructor
  · intro hne
    simp [SetTxSetStateRun, SetTxSetState, hprev, huadd, hne]
  · intro st2 hok
    by_contra hne
    simp [SetTxSetState, hprev, huadd, hne] at hok

/-- Witness for C4 at a concrete input: with no stored previous value the
zero record stands in, and a nonce of 5 (instead of 1) is rejected with
`InvalidArgument`, the state unchanged. -/
theorem setTxSetState_nonce_guard_witness :
    SetTxSetStateRun ⟨[], [], [], "txw"⟩ "B" ⟨5, 0, 0, 0, 0, []⟩ =
      (⟨[], [], [], "txw"⟩, some (.invalidArgument "Wrong nonce update.")) :=
  (setTxSetState_nonce_guard ⟨[], [], [], "txw"⟩ "B" ⟨5, 0, 0, 0, 0, []⟩
      TxSetStateValue.zero rfl (by norm_num [W, TxSetStateValue.zero])).1 (by decide)

/-- Helper for C5: on a mutation whose index actually changes, the
validator accepts exactly when the remaining four conditions of
`IsValidMutation` hold. -/
lemma isValidMutation_ok_iff (prev v : TxSetStateValue) (hidx : prev.index ≠ v.index) :
    prev.IsValidMutation v = .ok () ↔
      (prev.lastModifiedAtBlock < v.lastModifiedAtBlock ∧ v.txNumber = prev.txNumber ∧
       v.index < v.txNumber ∧ v.indexAtBlock = prev.indexAtBlock) := by
  unfold TxSetStateValue.IsValidMutation
  by_cases h1 : prev.lastModifiedAtBlock ≥ v.lastModifiedAtBlock <;>
    by_cases h2 : prev.txNumber = v.txNumber <;>
      by_cases h3 : v.index ≥ v.txNumber <;>
        by_cases h4 : prev.indexAtBlock = v.indexAtBlock <;>
          simp [h1, h2, h3, h4, hidx, eq_comm] <;> omega

/-- Helper for C5: `IsValidMutation` either accepts or returns an ordinary
error message (it contains no panicking code path). -/
lemma isValidMutation_error_shape (prev v : TxSetStateValue) :
    prev.IsValidMutation v = .ok () ∨
      ∃ s, prev.IsValidMutation v = .error (.errMsg s) := by
  unfold TxSetStateValue.IsValidMutation
  repeat' split
  all_goals simp

/-- Helper: inside a transaction, `TxSetState.Set` always returns
successfully (either staging the update or silently skipping a double
write). -/
lemma txSetState_set_ok (st : TxSetState) (id : String) (v : TxSetStateValue)
    (htx : st.txInProgress = true) :
    ∃ st2, TxSetState.Set st id v = .ok st2 := by
  unfold TxSetState.Set
  rw [htx]
  by_cases h : (isUpdatedValueSet st.currentTxSetStateDelta id
      || isUpdatedValueSet st.txSetStateDelta id) = true
  · exact ⟨st, by simp [h]⟩
  · refine ⟨{ st with currentTxSetStateDelta := dsetValue st.currentTxSetStateDelta id v (st.Get id true) }, ?_⟩
    simp [h]

/-- C5 counterexample: the previous value for set `A` is stored with
`nonce = 5` and `introBlock = 3`; the submitted mutant satisfies all five
conditions listed by the claim (later modification block, equal `txNumber`,
changed in-range index, identical `indexAtBlock`), and yet the write is
rejected, because its nonce (5) is not `prev.nonce + 1`: acceptance is not
equivalent to the five conditions alone. -/
theorem setTxSetState_mutation_not_iff :
    TxSetStateValue.lastModifiedAtBlock ⟨5, 3, 3, 1, 3, [⟨3, 2⟩]⟩ <
      TxSetStateValue.lastModifiedAtBlock ⟨5, 3, 7, 0, 3, [⟨3, 2⟩]⟩ ∧
    TxSetStateValue.txNumber ⟨5, 3, 7, 0, 3, [⟨3, 2⟩]⟩ =
      TxSetStateValue.txNumber ⟨5, 3, 3, 1, 3, [⟨3, 2⟩]⟩ ∧
    TxSetStateValue.index ⟨5, 3, 7, 0, 3, [⟨3, 2⟩]⟩ ≠
      TxSetStateValue.index ⟨5, 3, 3, 1, 3, [⟨3, 2⟩]⟩ ∧
    TxSetStateValue.index ⟨5, 3, 7, 0, 3, [⟨3, 2⟩]⟩ <
      TxSetStateValue.txNumber ⟨5, 3, 7, 0, 3, [⟨3, 2⟩]⟩ ∧
    TxSetStateValue.indexAtBlock ⟨5, 3, 7, 0, 3, [⟨3, 2⟩]⟩ =
      TxSetStateValue.indexAtBlock ⟨5, 3, 3, 1, 3, [⟨3, 2⟩]⟩ ∧
    TxSetStateValue.introBlock ⟨5, 3, 3, 1, 3, [⟨3, 2⟩]⟩ ≠ 0 ∧
    TxSetState.Get ⟨[("A", ⟨5, 3, 3, 1, 3, [⟨3, 2⟩]⟩)], [], [], "tx1"⟩ "A" true =
      some ⟨5, 3, 3, 1, 3, [⟨3, 2⟩]⟩ ∧
    SetTxSetStateRun ⟨[("A", ⟨5, 3, 3, 1, 3, [⟨3, 2⟩]⟩)], [], [], "tx1"⟩ "A"
        ⟨5, 3, 7, 0, 3, [⟨3, 2⟩]⟩ =
      (⟨[("A", ⟨5, 3, 3, 1, 3, [⟨3, 2⟩]⟩)], [], [], "tx1"⟩,
       some (.invalidArgument "Wrong nonce update.")) := by
  refine ⟨by norm_num, rfl, by decide, by norm_num, rfl, by decide, rfl, rfl⟩

/-- C5 amended: given additionally that the write carries the required
nonce (`prev.nonce + 1`, as `uint64`), preserves `introBlock`, and is
issued inside a transaction, a write with `prev.introBlock != 0` and
`new.index != prev.index` is accepted if and only if all of:
`prev.lastModifiedAtBlock < new.lastModifiedAtBlock`,
`new.txNumber = prev.txNumber`, `new.index < new.txNumber` and
`new.indexAtBlock` equal to `prev.indexAtBlock`; any violation yields an
`InvalidArgument` error with the state unchanged, and in particular an
out-of-range index is rejected with the `out of bound new index` error. -/
theorem setTxSetState_mutation_validation (st : TxSetState) (id : String)
    (v prev : TxSetStateValue)
    (hprev : (st.Get id true).getD TxSetStateValue.zero = prev)
    (hintro : prev.introBlock ≠ 0)
    (hidx : prev.index ≠ v.index)
    (hnonce : v.nonce = uadd prev.nonce 1)
    (hintroEq : v.introBlock = prev.introBlock)
    (htx : st.txInProgress = true) :
    ((∃ st2, SetTxSetState st id v = .ok st2) ↔
      (prev.lastModifiedAtBlock < v.lastModifiedAtBlock ∧ v.txNumber = prev.txNumber ∧
       v.index < v.txNumber ∧ v.indexAtBlock = prev.indexAtBlock)) ∧
    (¬ (prev.lastModifiedAtBlock < v.lastModifiedAtBlock ∧ v.txNumber = prev.txNumber ∧
        v.index < v.txNumber ∧ v.indexAtBlock = prev.indexAtBlock) →
      ∃ msg, SetTxSetStateRun st id v = (st, some (.invalidArgument msg))) ∧
    (prev.lastModifiedAtBlock < v.lastModifiedAtBlock → v.txNumber = prev.txNumber →
      v.txNumber ≤ v.index →
      SetTxSetStateRun st id v =
        (st, some (.invalidArgument "Provided an out of bound new index for the transaction."))) := by
  have hred : SetTxSetState st id v =
      (match prev.IsValidMutation v with
        | .error (.errMsg s) => .error (.invalidArgument s)
        | .error e => .error e
        | .ok _ => st.Set id v) := by
    simp [SetTxSetState, hprev, hnonce, hintro, hintroEq, hidx]
  refine ⟨?_, ?_, ?_⟩
  · constructor
    · intro ⟨st2, hok⟩
      rw [hred] at hok
      rcases isValidMutation_error_shape prev v with hmv | ⟨s, hmv⟩
      · exact (isValidMutation_ok_iff prev v hidx).mp hmv
      · rw [hmv] at hok; exact absurd hok (by simp)
    · intro hconds
      have hmv := (isValidMutation_ok_iff prev v hidx).mpr hconds
      rw [hred, hmv]
      exact txSetState_set_ok st id v htx
  · intro hnconds
    rcases isValidMutation_error_shape prev v with hmv | ⟨s, hmv⟩
    · exact absurd ((isValidMutation_ok_iff prev v hidx).mp hmv) hnconds
    · exact ⟨s, by simp [SetTxSetStateRun, hred, hmv]⟩
  · intro h1 h2 h3
    have hmv : prev.IsValidMutation v =
        .error (.errMsg "Provided an out of bound new index for the transaction.") := by
      have h1' : ¬ prev.lastModifiedAtBlock ≥ v.lastModifiedAtBlock := by omega
      have h2' : ¬ prev.txNumber ≠ v.txNumber := by omega
      have h3' : v.index ≥ v.txNumber := h3
      simp [TxSetStateValue.IsValidMutation, h1', h2', h3', hidx]
    simp [SetTxSetStateRun, hred, hmv]

/-- Witness for the amended C5 at a concrete input (scenario S4): following
a stored value `{nonce=2, introBlock=3, lastModifiedAtBlock=5, index=1,
txNumber=5}`, a mutant to index 9 violates `new.index < new.txNumber` and
is rejected with the `out of bound new index` `InvalidArgument` error,
state unchanged. -/
theorem setTxSetState_mutation_validation_witness :
    SetTxSetStateRun ⟨[("A", ⟨2, 3, 5, 1, 5, [⟨3, 2⟩, ⟨5, 4⟩]⟩)], [], [], "tx4"⟩ "A"
        ⟨3, 3, 7, 9, 5, [⟨3, 2⟩, ⟨5, 4⟩]⟩ =
      (⟨[("A", ⟨2, 3, 5, 1, 5, [⟨3, 2⟩, ⟨5, 4⟩]⟩)], [], [], "tx4"⟩,
       some (.invalidArgument "Provided an out of bound new index for the transaction.")) :=
  (setTxSetState_mutation_validation
      ⟨[("A", ⟨2, 3, 5, 1, 5, [⟨3, 2⟩, ⟨5, 4⟩]⟩)], [], [], "tx4"⟩ "A"
      ⟨3, 3, 7, 9, 5, [⟨3, 2⟩, ⟨5, 4⟩]⟩ ⟨2, 3, 5, 1, 5, [⟨3, 2⟩, ⟨5, 4⟩]⟩
      rfl (by decide) (by decide) (by decide) rfl rfl).2.2
    (by norm_num) rfl (by norm_num)

/-- C9: the out-of-range indexing branch of `IsValidBlockExtension` is
reachable through the public `SetTxSetState` interface: with no stored
previous value, a new value with `nonce = prev.nonce + 1 = 1`, a preserved
(zero) `introBlock` and an empty `indexAtBlock` list reaches
`IndexAtBlock[len(IndexAtBlock)-1]` on an empty slice — a Go runtime panic,
embedded as the distinguished indexing-error branch of the total model. -/
theorem isValidBlockExtension_index_panic_reachable :
    TxSetStateValue.IsValidBlockExtension TxSetStateValue.zero ⟨1, 0, 0, 0, 0, []⟩ =
      .error .panicIndexOutOfRange ∧
    SetTxSetState ⟨[], [], [], ""⟩ "A" ⟨1, 0, 0, 0, 0, []⟩ =
      .error .panicIndexOutOfRange := by
  exact ⟨rfl, rfl⟩

/-- One unfolding step of the `sort.Search` loop when the interval is
non-empty. -/
lemma searchLoop_step (f : Nat → Bool) (i j : Nat) (h : i < j) :
    searchLoop f i j =
      if f ((i + j) / 2) then searchLoop f i ((i + j) / 2)
      else searchLoop f ((i + j) / 2 + 1) j := by
  rw [searchLoop]
  simp [h]

/-- The `sort.Search` loop on an empty interval returns its lower bound. -/
lemma searchLoop_base (f : Nat → Bool) (i j : Nat) (h : ¬ i < j) :
    searchLoop f i j = i := by
  rw [searchLoop]
  simp [h]

/-- Looking up a key just put into a delta returns that update. -/
lemma dget_dput (D : TxSetStateDelta) (k : String) (uv : UpdatedValue) :
    dget (dput D k uv) k = some uv := by
  simp [dput, dget]

/-- C2: executing a transaction set with more than one candidate at block
`B` (the chain size, the ledger not resetting), when nothing is stored or
staged for its id, succeeds and stores
`{nonce=1, introBlock=B, lastModifiedAtBlock=B, index=defaultInx,
txNumber=n, indexAtBlock=[(B, n-1)]}` in the block delta, and dispatches
exactly the candidate at position `defaultInx` to the VM. -/
theorem executeTxSet_introduction (l : LedgerState) (tx : InBlockTx)
    (hlen : 1 < tx.txSet.transactions.length)
    (hW : tx.txSet.transactions.length < W)
    (hd : tx.txSet.defaultInx < tx.txSet.transactions.length)
    (hres : l.isResetting = false)
    (hext : tx.txSet.extend = false)
    (htxid : tx.txid ≠ "")
    (hcur : dget l.txSetState.currentTxSetStateDelta tx.txid = none)
    (hcom : dget l.txSetState.txSetStateDelta tx.txid = none)
    (hstore : sget l.txSetState.store tx.txid = none)
    (htx : l.txSetState.currentTxID = "") :
    (ExecuteTxSet l tx).err = none ∧
    (ExecuteTxSet l tx).dispatch =
      some (.payload (tx.txSet.transactions.getD tx.txSet.defaultInx "")) ∧
    dget (ExecuteTxSet l tx).ledger.txSetState.txSetStateDelta tx.txid =
      some ⟨none, some ⟨1, l.blockchainSize, l.blockchainSize, tx.txSet.defaultInx,
        tx.txSet.transactions.length,
        [⟨l.blockchainSize, tx.txSet.transactions.length - 1⟩]⟩, false⟩ ∧
    (ExecuteTxSet l tx).ledger.txSetState.Get tx.txid false =
      some ⟨1, l.blockchainSize, l.blockchainSize, tx.txSet.defaultInx,
        tx.txSet.transactions.length,
        [⟨l.blockchainSize, tx.txSet.transactions.length - 1⟩]⟩ := by
  have hGetF : l.txSetState.Get tx.txid false = none := by
    simp [TxSetState.Get, hcur, hcom, hstore]
  have hB : l.currentBlockEx = l.blockchainSize := by
    simp [LedgerState.currentBlockEx, hres]
  have h1 : uadd 0 1 = 1 := uadd_eq 0 1 (by norm_num [W])
  have h2 : uadd 0 tx.txSet.transactions.length = tx.txSet.transactions.length :=
    (uadd_eq 0 _ (by omega)).trans (Nat.zero_add _)
  have h3 : usub tx.txSet.transactions.length 1 = tx.txSet.transactions.length - 1 :=
    usub_of_le _ 1 (by omega) hW
  -- the freshly created state value
  have hne0 : ¬ (tx.txSet.transactions.length = 0) := by omega
  -- the written value
  set newVal : TxSetStateValue :=
    ⟨1, l.blockchainSize, l.blockchainSize, tx.txSet.defaultInx,
      tx.txSet.transactions.length,
      [⟨l.blockchainSize, tx.txSet.transactions.length - 1⟩]⟩ with hnv
  -- txBegin
  set st1 : TxSetState := { l.txSetState with currentTxID := tx.txid } with hst1
  have hbegin : l.txSetState.TxBegin tx.txid = .ok st1 := by
    simp [TxSetState.TxBegin, TxSetState.txInProgress, htx, hst1]
  -- the extension validator accepts the new value over the zero record
  have hvalid : TxSetStateValue.IsValidBlockExtension ⟨0, 0, 0, 0, 0, []⟩ newVal = .ok () := by
    simp [TxSetStateValue.IsValidBlockExtension, checkPriorEntries, hnv, h3]
  have hst1get : st1.Get tx.txid true = none := by
    simp [TxSetState.Get, hst1, hstore]
  have hprogress : st1.txInProgress = true := by
    simp [TxSetState.txInProgress, hst1, htxid]
  -- the raw Set stages the update in the current delta
  set st2 : TxSetState := { st1 with currentTxSetStateDelta := dput st1.currentTxSetStateDelta tx.txid ⟨none, some newVal, false⟩ } with hst2
  have hsetStep : TxSetState.Set st1 tx.txid newVal = .ok st2 := by
    simp [TxSetState.Set, hprogress, isUpdatedValueSet, hst1, hcur, hcom,
      hst1get, dsetValue, hst2]
  -- the invariant-enforcing writer accepts
  have hwrite : SetTxSetState st1 tx.txid newVal = .ok st2 := by
    simp [SetTxSetState, hst1get, hvalid, hsetStep, hnv, h1, TxSetStateValue.zero]
  -- txFinish merges the current delta into the block delta
  set st3 : TxSetState :=
    { st2 with
        txSetStateDelta := applyChanges st2.txSetStateDelta st2.currentTxSetStateDelta,
        currentTxSetStateDelta := [],
        currentTxID := "" } with hst3
  have hfinish : st2.TxFinish tx.txid true = .ok st3 := by
    simp [TxSetState.TxFinish, hst2, hst1, hst3, dput]
  have hcommitted : dget st3.txSetStateDelta tx.txid = some ⟨none, some newVal, false⟩ := by
    simp only [hst3, hst2, hst1, applyChanges, dput, List.foldr_cons]
    exact dget_dput _ _ _
  have hget3 : st3.Get tx.txid false = some newVal := by
    simp [TxSetState.Get, hst3, dget, hcommitted]
  -- dispatch resolution on the updated state
  have hbytes : tx.txSet.transactions.get? tx.txSet.defaultInx =
      some (tx.txSet.transactions.getD tx.txSet.defaultInx "") := by
    rw [List.getD_eq_get?, List.get?_eq_get hd]
    rfl
  have hidx : newVal.index = tx.txSet.defaultInx := by rw [hnv]
  have hiab : newVal.indexAtBlock =
      [⟨l.blockchainSize, tx.txSet.transactions.length - 1⟩] := by rw [hnv]
  have h0 : newVal.index ≤ ibiAt newVal 0 := by
    simp [ibiAt, hiab, hidx]
    omega
  have hsearch : searchLoop (fun h => decide (newVal.index ≤ ibiAt newVal h)) 0 1 = 0 := by
    rw [searchLoop_step _ 0 1 (by norm_num)]
    norm_num [h0]
    exact searchLoop_base _ _ _ (by norm_num)
  have hpos : newVal.PositionForIndex newVal.index = .ok 0 := by
    have hlen1 : newVal.indexAtBlock.length = 1 := by rw [hiab]; rfl
    simp only [TxSetStateValue.PositionForIndex, hlen1, hsearch]
    norm_num
  have hresolve : resolveDefault newVal newVal.index =
      .ok (l.blockchainSize, tx.txSet.defaultInx) := by
    simp only [resolveDefault, TxSetStateValue.BlockForIndex, hpos]
    norm_num [blockNrAt, hiab, hidx]
    exact usub_of_le _ 0 (Nat.zero_le _) (by omega)
  have hdispatch : GetCurrentDefault st3 l.blockchainSize tx false =
      .ok (.payload (tx.txSet.transactions.getD tx.txSet.defaultInx "")) := by
    simp only [GetCurrentDefault, hget3, hbytes, hidx, hresolve]
    simp
  -- assemble
  have hmain : ExecuteTxSet l tx =
      ⟨{ l with txSetState := st3 },
        some (.payload (tx.txSet.transactions.getD tx.txSet.defaultInx "")), none⟩ := by
    simp only [ExecuteTxSet, hGetF, hB, hext, hres, Option.isSome_none, hne0, if_false,
      Bool.false_eq_true, false_or, false_and, hlen, or_true, and_true, true_and, if_true,
      hbegin, TxSetStateValue.zero, h1, h2, h3, List.nil_append]
    rw [← hnv]
    simp only [hwrite, hfinish]
    rw [if_neg (by simp)]
    simp [executeTxSetDispatch, hext, hdispatch, hres]
  rw [hmain]
  exact ⟨rfl, rfl, hcommitted, hget3⟩

/-- Witness for C2 at the concrete S1 scenario: `TxSet{txid=A,
candidates=[t0,t1,t2], defaultInx=1}` in block 3 stores
`{nonce=1, introBlock=3, lastModifiedAtBlock=3, index=1, txNumber=3,
indexAtBlock=[(3,2)]}` and dispatches exactly `t1`. -/
theorem executeTxSet_introduction_witness :
    (ExecuteTxSet ⟨⟨[], [], [], ""⟩, false, 3, 0⟩ ⟨"A", ⟨["t0", "t1", "t2"], 1, false⟩⟩).err =
      none ∧
    (ExecuteTxSet ⟨⟨[], [], [], ""⟩, false, 3, 0⟩
        ⟨"A", ⟨["t0", "t1", "t2"], 1, false⟩⟩).dispatch = some (.payload "t1") ∧
    dget (ExecuteTxSet ⟨⟨[], [], [], ""⟩, false, 3, 0⟩
        ⟨"A", ⟨["t0", "t1", "t2"], 1, false⟩⟩).ledger.txSetState.txSetStateDelta "A" =
      some ⟨none, some ⟨1, 3, 3, 1, 3, [⟨3, 2⟩]⟩, false⟩ ∧
    (ExecuteTxSet ⟨⟨[], [], [], ""⟩, false, 3, 0⟩
        ⟨"A", ⟨["t0", "t1", "t2"], 1, false⟩⟩).ledger.txSetState.Get "A" false =
      some ⟨1, 3, 3, 1, 3, [⟨3, 2⟩]⟩ :=
  executeTxSet_introduction ⟨⟨[], [], [], ""⟩, false, 3, 0⟩
    ⟨"A", ⟨["t0", "t1", "t2"], 1, false⟩⟩
    (by norm_num) (by norm_num [W]) (by norm_num) rfl rfl (by decide) rfl rfl rfl rfl

/-- Correctness of the embedded `sort.Search` loop: on a predicate that is
monotone on the searched interval, it returns the least index satisfying
the predicate (or the upper bound when none does). -/
lemma searchLoop_correct (f : Nat → Bool) :
    ∀ n i j, j - i ≤ n → i ≤ j →
      (∀ a b, i ≤ a → a ≤ b → b < j → f a = true → f b = true) →
      i ≤ searchLoop f i j ∧ searchLoop f i j ≤ j ∧
      (∀ k, i ≤ k → k < searchLoop f i j → f k = false) ∧
      (searchLoop f i j < j → f (searchLoop f i j) = true) := by
  intro n
  induction n with
  | zero =>
    intro i j hn hij hmono
    have hji : ¬ i < j := by omega
    rw [searchLoop_base f i j hji]
    exact ⟨le_refl _, hij, fun k hk1 hk2 => absurd hk2 (by omega),
      fun h => absurd h (by omega)⟩
  | succ n ih =>
    intro i j hn hij hmono
    by_cases hij' : i < j
    · rw [searchLoop_step f i j hij']
      have hmlow : i ≤ (i + j) / 2 := (Nat.le_div_iff_mul_le (by omega)).mpr (by omega)
      have hmhigh : (i + j) / 2 < j := Nat.div_lt_of_lt_mul (by omega)
      by_cases hf : f ((i + j) / 2) = true
      · rw [if_pos hf]
        obtain ⟨ha, hb, hc, hd⟩ := ih i ((i + j) / 2) (by omega) hmlow
          (fun a b h1 h2 h3 => hmono a b h1 h2 (by omega))
        refine ⟨ha, by omega, hc, ?_⟩
        intro hr
        rcases Nat.lt_or_ge (searchLoop f i ((i + j) / 2)) ((i + j) / 2) with h | h
        · exact hd h
        · have heq : searchLoop f i ((i + j) / 2) = (i + j) / 2 := by omega
          rw [heq]
          exact hf
      · rw [if_neg hf]
        have hfm : f ((i + j) / 2) = false := by
          cases hfm : f ((i + j) / 2) with
          | true => exact absurd hfm hf
          | false => rfl
        obtain ⟨ha, hb, hc, hd⟩ := ih ((i + j) / 2 + 1) j (by omega) (by omega)
          (fun a b h1 h2 h3 => hmono a b (by omega) h2 h3)
        refine ⟨by omega, hb, ?_, hd⟩
        intro k hk1 hk2
        rcases Nat.lt_or_ge k ((i + j) / 2 + 1) with h | h
        · cases hfk : f k with
          | false => rfl
          | true =>
            have hcontra := hmono k ((i + j) / 2) hk1 (by omega) (by omega) hfk
            rw [hfm] at hcontra
            exact absurd hcontra (by simp)
        · exact hc k h hk2
    · rw [searchLoop_base f i j hij']
      exact ⟨le_refl _, hij, fun k hk1 hk2 => absurd hk2 (by omega),
        fun h => absurd h (by omega)⟩

/-- C1: for a `TxSetStateValue` whose `indexAtBlock` has monotone
`inBlockIndex` entries (which every value maintained by the writer's
invariants has) and an active index `inx`, the resolver finds by binary
search the smallest `i` with `inx <= indexAtBlock[i].inBlockIndex` — an
error when no entry qualifies — takes `defBlock = indexAtBlock[i].blockNr`,
and selects the local position `inx - (indexAtBlock[i-1].inBlockIndex + 1)`,
which is `inx` itself when `i = 0`. -/
theorem positionForIndex_least_and_localIndex (v : TxSetStateValue) (inx : Nat)
    (hsorted : ∀ a b, a ≤ b → b < v.indexAtBlock.length → ibiAt v a ≤ ibiAt v b)
    (hbound : ∀ k, k < v.indexAtBlock.length → ibiAt v k < W)
    (hinx : inx < W) :
    ((∀ k, k < v.indexAtBlock.length → ibiAt v k < inx) →
      v.PositionForIndex inx = .error (.errMsg "Block for index not found.")) ∧
    (∀ i, i < v.indexAtBlock.length → inx ≤ ibiAt v i →
      (∀ k, k < i → ibiAt v k < inx) →
      v.PositionForIndex inx = .ok i ∧
      resolveDefault v inx =
        .ok (blockNrAt v i, if i = 0 then inx else inx - (ibiAt v (i - 1) + 1))) := by
  have hmono : ∀ a b, 0 ≤ a → a ≤ b → b < v.indexAtBlock.length →
      (fun h => decide (inx ≤ ibiAt v h)) a = true →
      (fun h => decide (inx ≤ ibiAt v h)) b = true := by
    intro a b _ hab hb hfa
    simp only [decide_eq_true_eq] at hfa ⊢
    exact le_trans hfa (hsorted a b hab hb)
  obtain ⟨ha, hb, hc, hd⟩ := searchLoop_correct (fun h => decide (inx ≤ ibiAt v h))
    v.indexAtBlock.length 0 v.indexAtBlock.length (by omega) (by omega) hmono
  constructor
  · intro hall
    have hnlt : ¬ searchLoop (fun h => decide (inx ≤ ibiAt v h)) 0
        v.indexAtBlock.length < v.indexAtBlock.length := by
      intro hlt
      have hdt := hd hlt
      simp only [decide_eq_true_eq] at hdt
      have := hall _ hlt
      omega
    simp only [TxSetStateValue.PositionForIndex]
    rw [if_neg hnlt]
  · intro i hi hle hleast
    have hreq : searchLoop (fun h => decide (inx ≤ ibiAt v h)) 0
        v.indexAtBlock.length = i := by
      by_contra hne
      rcases Nat.lt_or_ge (searchLoop (fun h => decide (inx ≤ ibiAt v h)) 0
          v.indexAtBlock.length) i with h | h
      · have hdt := hd (by omega)
        simp only [decide_eq_true_eq] at hdt
        have := hleast _ h
        omega
      · have hlt : i < searchLoop (fun h => decide (inx ≤ ibiAt v h)) 0
            v.indexAtBlock.length := by omega
        have hck := hc i (by omega) hlt
        simp only [decide_eq_false_iff_not] at hck
        exact hck hle
    have hpos : v.PositionForIndex inx = .ok i := by
      simp only [TxSetStateValue.PositionForIndex, hreq]
      rw [if_pos hi]
    refine ⟨hpos, ?_⟩
    simp only [resolveDefault, TxSetStateValue.BlockForIndex, hpos]
    by_cases hi0 : i = 0
    · rw [if_pos hi0, if_pos hi0]
      rw [usub_of_le inx 0 (Nat.zero_le _) hinx]
      simp [hi0]
    · rw [if_neg hi0, if_neg hi0]
      have hprev : ibiAt v (i - 1) < inx := hleast (i - 1) (by omega)
      have hprevW : ibiAt v (i - 1) < W := hbound (i - 1) (by omega)
      rw [uadd_eq _ 1 (by omega), usub_of_le inx (ibiAt v (i - 1) + 1) (by omega) hinx]

/-- Witness for C1 at a concrete input: for the state value with
`indexAtBlock = [(3,2),(5,4)]` and active index 3, the resolver returns
position 1, `defBlock = 5` and local index `3 - (2 + 1) = 0`. -/
theorem positionForIndex_least_and_localIndex_witness :
    TxSetStateValue.PositionForIndex ⟨2, 3, 5, 1, 5, [⟨3, 2⟩, ⟨5, 4⟩]⟩ 3 = .ok 1 ∧
    resolveDefault ⟨2, 3, 5, 1, 5, [⟨3, 2⟩, ⟨5, 4⟩]⟩ 3 = .ok (5, 0) := by
  have h := (positionForIndex_least_and_localIndex ⟨2, 3, 5, 1, 5, [⟨3, 2⟩, ⟨5, 4⟩]⟩ 3
      (by
        intro a b hab hb
        simp only [TxSetStateValue.indexAtBlock, List.length_cons, List.length_nil] at hb
        interval_cases b <;> interval_cases a <;> decide)
      (by
        intro k hk
        simp only [TxSetStateValue.indexAtBlock, List.length_cons, List.length_nil] at hk
        interval_cases k <;> norm_num [ibiAt, W])
      (by norm_num [W])).2 1 (by norm_num) (by decide)
      (by intro k hk; interval_cases k <;> decide)
  exact ⟨h.1, h.2⟩

/-- Helper for C8: full characterization of the `GetOlderBlockMod` scan
loop — given that every mutant-bearing update carries a value, the fold
succeeds, returns `none` exactly when the accumulator started as `none` and
no mutant update occurs, and otherwise returns an attained lower bound of
the accumulator and of all mutant updates' `value.introBlock`. -/
lemma golderAux_spec (L : List (String × UpdatedValue)) :
    (∀ p, p ∈ L → p.2.isMutant = true → p.2.value.isSome = true) →
    ∀ acc : Option Nat, ∃ r, golderAux L acc = .ok r ∧
      (r = none ↔ (acc = none ∧ ∀ p, p ∈ L → p.2.isMutant = false)) ∧
      (∀ m, r = some m →
        ((∀ a, acc = some a → m ≤ a) ∧
          ∀ p, p ∈ L → p.2.isMutant = true → ∀ w, p.2.value = some w →
            m ≤ w.introBlock) ∧
        (acc = some m ∨
          ∃ p, p ∈ L ∧ p.2.isMutant = true ∧
            ∃ w, p.2.value = some w ∧ w.introBlock = m)) := by
  induction L with
  | nil =>
    intro _ acc
    refine ⟨acc, rfl, by simp, ?_⟩
    intro m hm
    refine ⟨⟨fun a ha => ?_, by simp⟩, Or.inl hm⟩
    rw [hm] at ha
    injection ha with h
    omega
  | cons hd tl ih =>
    intro hval acc
    obtain ⟨k, uv⟩ := hd
    have hvtl : ∀ p, p ∈ tl → p.2.isMutant = true → p.2.value.isSome = true :=
      fun p hp => hval p (List.mem_cons_of_mem _ hp)
    by_cases hmut : uv.isMutant = true
    · have hsomev : uv.value.isSome = true := hval (k, uv) (List.mem_cons_self _ _) hmut
      obtain ⟨w, hw⟩ := Option.isSome_iff_exists.mp hsomev
      cases acc with
      | none =>
        obtain ⟨r, hr, hnone, hsome⟩ := ih hvtl (some w.introBlock)
        refine ⟨r, ?_, ?_, ?_⟩
        · rw [show golderAux ((k, uv) :: tl) none = golderAux tl (some w.introBlock) from by
            simp [golderAux, hmut, hw], hr]
        · constructor
          · intro h0
            exact absurd (hnone.mp h0).1 (by simp)
          · rintro ⟨-, hall⟩
            have := hall (k, uv) (List.mem_cons_self _ _)
            simp only at this
            rw [this] at hmut
            exact absurd hmut (by simp)
        · intro m hm
          obtain ⟨⟨hacc, htl⟩, hatt⟩ := hsome m hm
          have hmw : m ≤ w.introBlock := hacc _ rfl
          refine ⟨⟨fun a ha => Option.noConfusion ha, ?_⟩, ?_⟩
          · intro p hp hpmut w' hw'
            rcases List.mem_cons.mp hp with rfl | hp'
            · simp only at hw'
              rw [hw] at hw'
              injection hw' with hww
              exact hww ▸ hmw
            · exact htl p hp' hpmut w' hw'
          · rcases hatt with hacc' | ⟨p, hp, hpm, w', hw', hwm⟩
            · injection hacc' with h
              exact Or.inr ⟨(k, uv), List.mem_cons_self _ _, hmut, w, hw, h⟩
            · exact Or.inr ⟨p, List.mem_cons_of_mem _ hp, hpm, w', hw', hwm⟩
      | some a =>
        obtain ⟨r, hr, hnone, hsome⟩ :=
          ih hvtl (some (if w.introBlock < a then w.introBlock else a))
        refine ⟨r, ?_, ?_, ?_⟩
        · rw [show golderAux ((k, uv) :: tl) (some a) =
              golderAux tl (some (if w.introBlock < a then w.introBlock else a)) from by
            simp [golderAux, hmut, hw], hr]
        · constructor
          · intro h0
            exact absurd (hnone.mp h0).1 (by simp)
          · rintro ⟨h0, -⟩
            cases h0
        · intro m hm
          obtain ⟨⟨hacc, htl⟩, hatt⟩ := hsome m hm
          have hmnv : m ≤ if w.introBlock < a then w.introBlock else a := hacc _ rfl
          have hnv_le_a : (if w.introBlock < a then w.introBlock else a) ≤ a := by
            split <;> omega
          have hnv_le_w : (if w.introBlock < a then w.introBlock else a) ≤ w.introBlock := by
            split <;> omega
          refine ⟨⟨fun a' ha' => ?_, ?_⟩, ?_⟩
          · injection ha' with h
            omega
          · intro p hp hpmut w' hw'
            rcases List.mem_cons.mp hp with rfl | hp'
            · simp only at hw'
              rw [hw] at hw'
              injection hw' with hww
              exact hww ▸ (le_trans hmnv hnv_le_w)
            · exact htl p hp' hpmut w' hw'
          · rcases hatt with hacc' | ⟨p, hp, hpm, w', hw', hwm⟩
            · injection hacc' with h
              by_cases hlt : w.introBlock < a
              · rw [if_pos hlt] at h
                exact Or.inr ⟨(k, uv), List.mem_cons_self _ _, hmut, w, hw, h⟩
              · rw [if_neg hlt] at h
                exact Or.inl (by rw [h])
            · exact Or.inr ⟨p, List.mem_cons_of_mem _ hp, hpm, w', hw', hwm⟩
    · have hmut' : uv.isMutant = false := by
        cases h : uv.isMutant
        · rfl
        · exact absurd h hmut
      obtain ⟨r, hr, hnone, hsome⟩ := ih hvtl acc
      refine ⟨r, ?_, ?_, ?_⟩
      · rw [show golderAux ((k, uv) :: tl) acc = golderAux tl acc from by
          simp [golderAux, hmut'], hr]
      · rw [hnone]
        constructor
        · rintro ⟨h1, h2⟩
          refine ⟨h1, ?_⟩
          intro p hp
          rcases List.mem_cons.mp hp with rfl | hp'
          · exact hmut'
          · exact h2 p hp'
        · rintro ⟨h1, h2⟩
          exact ⟨h1, fun p hp => h2 p (List.mem_cons_of_mem _ hp)⟩
      · intro m hm
        obtain ⟨⟨hacc, htl⟩, hatt⟩ := hsome m hm
        refine ⟨⟨hacc, ?_⟩, ?_⟩
        · intro p hp hpmut w' hw'
          rcases List.mem_cons.mp hp with rfl | hp'
          · simp only at hpmut
            rw [hpmut] at hmut'
            exact absurd hmut' (by simp)
          · exact htl p hp' hpmut w' hw'
        · rcases hatt with h | ⟨p, hp, hpm, w', hw', hwm⟩
          · exact Or.inl h
          · exact Or.inr ⟨p, List.mem_cons_of_mem _ hp, hpm, w', hw', hwm⟩

/-- C8 counterexample: the committed delta holds a single mutant-bearing
update whose `previous.introBlock` is 5 but whose new `value.introBlock` is
7; `GetOlderBlockMod` returns 7, not the 5 the claim requires — the code
reads `Value.IntroBlock`, not `Previous.IntroBlock`. -/
theorem getOlderBlockMod_uses_value_not_previous :
    TxSetStateValue.introBlock ⟨1, 5, 5, 0, 3, [⟨5, 2⟩]⟩ = 5 ∧
    TxSetState.GetOlderBlockMod
      ⟨[], [("A", ⟨some ⟨1, 5, 5, 0, 3, [⟨5, 2⟩]⟩, some ⟨2, 7, 7, 1, 3, [⟨5, 2⟩]⟩, true⟩)],
        [], ""⟩ = .ok (7, true) ∧
    TxSetState.GetOlderBlockMod
      ⟨[], [("A", ⟨some ⟨1, 5, 5, 0, 3, [⟨5, 2⟩]⟩, some ⟨2, 7, 7, 1, 3, [⟨5, 2⟩]⟩, true⟩)],
        [], ""⟩ ≠ .ok (5, true) := ⟨rfl, rfl, by simp [TxSetState.GetOlderBlockMod, golderAux]⟩

/-- C8 amended: `getOlderBlockMod()` returns the smallest `value.introBlock`
(the NEW value's intro block, which equals `previous.introBlock` for every
update produced by a valid mutation, since mutations preserve `introBlock`)
among the committed-delta updates with `isMutant = true`, and reports that
no block is to be modified exactly when no update has `isMutant = true`. -/
theorem getOlderBlockMod_min_mutant_value (st : TxSetState)
    (hval : ∀ p, p ∈ st.txSetStateDelta → p.2.isMutant = true → p.2.value.isSome = true) :
    ((∀ p, p ∈ st.txSetStateDelta → p.2.isMutant = false) →
      st.GetOlderBlockMod = .ok (0, false)) ∧
    (∀ m, st.GetOlderBlockMod = .ok (m, true) →
      (∀ p, p ∈ st.txSetStateDelta → p.2.isMutant = true →
        ∀ w, p.2.value = some w → m ≤ w.introBlock) ∧
      (∃ p, p ∈ st.txSetStateDelta ∧ p.2.isMutant = true ∧
        ∃ w, p.2.value = some w ∧ w.introBlock = m)) ∧
    ((∃ p, p ∈ st.txSetStateDelta ∧ p.2.isMutant = true) →
      ∃ m, st.GetOlderBlockMod = .ok (m, true)) := by
  obtain ⟨r, hr, hnone, hsome⟩ := golderAux_spec st.txSetStateDelta hval none
  refine ⟨?_, ?_, ?_⟩
  · intro hall
    have h0 : r = none := hnone.mpr ⟨rfl, hall⟩
    rw [h0] at hr
    simp [TxSetState.GetOlderBlockMod, hr]
  · intro m hm
    rcases r with _ | m'
    · simp [TxSetState.GetOlderBlockMod, hr] at hm
    · have hm' : m' = m := by
        simp [TxSetState.GetOlderBlockMod, hr] at hm
        exact hm
      subst hm'
      obtain ⟨⟨-, htl⟩, hatt⟩ := hsome m' rfl
      refine ⟨htl, ?_⟩
      rcases hatt with h | h
      · cases h
      · exact h
  · rintro ⟨p, hp, hpm⟩
    rcases r with _ | m'
    · obtain ⟨-, hall⟩ := hnone.mp rfl
      rw [hall p hp] at hpm
      exact absurd hpm (by simp)
    · exact ⟨m', by simp [TxSetState.GetOlderBlockMod, hr]⟩

/-- Witness for the amended C8 at a concrete input: a committed delta whose
only update is not mutant-bearing makes `GetOlderBlockMod` report that no
block is to be modified. -/
theorem getOlderBlockMod_min_mutant_value_witness :
    TxSetState.GetOlderBlockMod
      ⟨[], [("A", ⟨none, some ⟨1, 3, 3, 1, 3, [⟨3, 2⟩]⟩, false⟩)], [], ""⟩ =
      .ok (0, false) :=
  (getOlderBlockMod_min_mutant_value
      ⟨[], [("A", ⟨none, some ⟨1, 3, 3, 1, 3, [⟨3, 2⟩]⟩, false⟩)], [], ""⟩
      (by
        intro p hp hmut
        rw [List.mem_singleton] at hp
        subst hp
        exact absurd hmut (by decide))).1
    (by
      intro p hp
      rw [List.mem_singleton] at hp
      subst hp
      rfl)
